import Mathlib

/-!
Verification of the buffer core of lib_strings.

The embedding follows src/unnamed/part_001 (the complete variant of
libstrings.c, whose API is typedef char *string with a struct meta
header holding len and capacity).  A string is modelled as a record of
the two meta fields together with the allocated byte buffer.  size_t
arithmetic is modelled as Nat with explicit reduction modulo 2 ^ 64 at
the points where the C code performs size_t computations, and the
unsigned int parameter of string_cut is reduced modulo 2 ^ 32.
Reallocation is modelled through an oracle alloc : Nat -> Bool telling
whether a (re)allocation of the requested capacity succeeds; realloc
preserves the prefix of the old buffer and fills fresh bytes with the
indeterminate junk value PAD.  Out of range stores are dropped, and the
NULL guards of the public wrappers are outside the model (all claims
concern the non NULL paths, except string_destroy which is modelled on
Option).  Error codes mirror errno: functions return the C int result
paired with the post state, so that failure paths carry the state they
leave behind.
-/

namespace LibStrings

/-- 2 ^ 64, the modulus of size_t arithmetic. -/
def W64 : Nat := 2 ^ 64

/-- 2 ^ 32, the modulus of unsigned int arithmetic. -/
def W32 : Nat := 2 ^ 32

/-- Junk value standing for indeterminate fresh bytes of malloc and realloc. -/
def PAD : Nat := 170

def ENOMEM : Int := 12

def EINVAL : Int := 22

def ERANGE : Int := 34

/-- The state of one string: the struct meta fields len and capacity
(src/unnamed/part_001 lines 18-21) together with the character storage
that follows the header.  bytes is the whole allocation of the
character area, so bytes.length is the number of bytes actually
allocated for characters. -/
structure StrBuf where
  len : Nat
  capacity : Nat
  bytes : List Nat
deriving Repr, DecidableEq

/-- The logical content of a string: the first len bytes of the storage. -/
def content (s : StrBuf) : List Nat := s.bytes.take s.len

/-- A valid string: the capacity field matches the allocation, there is
room for the terminator, the terminator byte is in place, and the two
size_t fields hold representable values. -/
def Valid (s : StrBuf) : Prop :=
  s.bytes.length = s.capacity ∧ s.len + 1 ≤ s.capacity ∧
    s.bytes.get? s.len = some 0 ∧ s.capacity < W64

instance (s : StrBuf) : Decidable (Valid s) := by
  unfold Valid
  infer_instance

/-- Store one byte at an index; an out of range store is dropped. -/
def setByte (l : List Nat) (i : Nat) (v : Nat) : List Nat := l.set i v

/-- Store a run of bytes starting at an offset, one store per byte; the
stores that fall out of range are dropped. -/
def writeBytes : List Nat → Nat → List Nat → List Nat
  | buf, _, [] => buf
  | buf, off, v :: rest => writeBytes (buf.set off v) (off + 1) rest

/-- The n bytes that strncpy(dest, src, n) stores: src up to its first
zero byte, truncated to n bytes, padded with zero bytes up to n. -/
def strncpyData (src : List Nat) (n : Nat) : List Nat :=
  let t := (src.takeWhile (fun c => c ≠ 0)).take n
  t ++ List.replicate (n - t.length) 0

/-- Decidable helper predicate: no zero byte occurs in a list. -/
def NoZero (l : List Nat) : Prop := ∀ c ∈ l, c ≠ 0

instance (l : List Nat) : Decidable (NoZero l) := by
  unfold NoZero
  infer_instance

/-- An allocation oracle under which every request succeeds. -/
def alwaysAlloc : Nat → Bool := fun _ => true

/-- An allocation oracle under which every request fails. -/
def neverAlloc : Nat → Bool := fun _ => false

/-- set_string_capacity (src/unnamed/part_001 lines 42-52): realloc the
header plus capacity bytes; on failure return -ENOMEM leaving the state
untouched, on success update the capacity field.  realloc keeps the
prefix of the old storage and fresh bytes are indeterminate. -/
def set_string_capacity (alloc : Nat → Bool) (s : StrBuf) (capacity0 : Nat) :
    Int × StrBuf :=
  let capacity := capacity0 % W64
  if alloc capacity then
    (0, { len := s.len, capacity := capacity,
          bytes := s.bytes.take capacity ++
            List.replicate (capacity - s.bytes.length) PAD })
  else (-ENOMEM, s)

/-- set_string_length (src/unnamed/part_001 lines 66-82): grow the
capacity to len * 2 + 1 when capacity < len + 1, then store the len
field.  All the arithmetic is size_t arithmetic. -/
def set_string_length (alloc : Nat → Bool) (s : StrBuf) (len0 : Nat) :
    Int × StrBuf :=
  let len := len0 % W64
  if s.capacity < (len + 1) % W64 then
    let r := set_string_capacity alloc s (len * 2 + 1)
    if r.1 < 0 then r
    else (0, { r.2 with len := len })
  else (0, { s with len := len })

/-- sub_string (src/unnamed/part_001 lines 92-105): malloc a fresh
buffer of len + 1 character bytes, set the meta fields, strncpy len
bytes from src + start and store the terminator.  start is an
unsigned int and the size arithmetic is size_t arithmetic. -/
def sub_string (alloc : Nat → Bool) (src : List Nat) (start0 : Nat)
    (len0 : Nat) : Option StrBuf :=
  let start := start0 % W32
  let len := len0 % W64
  if alloc ((len + 1) % W64) then
    some { len := len, capacity := (len + 1) % W64,
           bytes := setByte
             (writeBytes (List.replicate ((len + 1) % W64) PAD) 0
               (strncpyData (src.drop start) len)) len 0 }
  else none

/-- copy_string (src/unnamed/part_001 lines 115-126): set the length,
then strncpy the source over the content and store the terminator. -/
def copy_string (alloc : Nat → Bool) (dest : StrBuf) (src : List Nat)
    (len0 : Nat) : Int × StrBuf :=
  let len := len0 % W64
  let r := set_string_length alloc dest len
  if r.1 < 0 then r
  else (0, { r.2 with
             bytes := setByte (writeBytes r.2.bytes 0 (strncpyData src len))
               len 0 })

/-- append_string (src/unnamed/part_001 lines 136-147): grow the length
to cur_len + len, strncpy the source at offset cur_len and store the
terminator at cur_len + len. -/
def append_string (alloc : Nat → Bool) (dest : StrBuf) (src : List Nat)
    (len0 : Nat) : Int × StrBuf :=
  let len := len0 % W64
  let cur_len := dest.len
  let r := set_string_length alloc dest ((cur_len + len) % W64)
  if r.1 < 0 then r
  else (0, { r.2 with
             bytes := setByte
               (writeBytes r.2.bytes cur_len (strncpyData src len))
               ((cur_len + len) % W64) 0 })

/-- prepend_string (src/unnamed/part_001 lines 157-169): grow the length
to cur_len + len, memmove the cur_len old bytes from offset 0 to offset
len (the move reads the whole source range before storing, so it is
overlap safe), strncpy the source into the prefix and store the
terminator at cur_len + len. -/
def prepend_string (alloc : Nat → Bool) (dest : StrBuf) (src : List Nat)
    (len0 : Nat) : Int × StrBuf :=
  let len := len0 % W64
  let cur_len := dest.len
  let r := set_string_length alloc dest ((cur_len + len) % W64)
  if r.1 < 0 then r
  else
    let moved := writeBytes r.2.bytes len (r.2.bytes.take cur_len)
    (0, { r.2 with
          bytes := setByte (writeBytes moved 0 (strncpyData src len))
            ((cur_len + len) % W64) 0 })

/-- string_empty (src/unnamed/part_001 lines 175-187): malloc the header
plus one byte, set len to 0 and capacity to 1, store the terminator. -/
def string_empty (alloc : Nat → Bool) : Option StrBuf :=
  if alloc 1 then some { len := 0, capacity := 1, bytes := [0] }
  else none

/-- string_empty of the src/src/libstrings.c variant (lines 94-106):
identical allocation of one character byte and identical terminator
store, but the capacity field is set to 0 instead of 1. -/
def string_empty_v0 (alloc : Nat → Bool) : Option StrBuf :=
  if alloc 1 then some { len := 0, capacity := 0, bytes := [0] }
  else none

/-- string_dup (src/unnamed/part_001 lines 189-195): sub_string over the
whole stored buffer with start 0 and the current length. -/
def string_dup (alloc : Nat → Bool) (src : StrBuf) : Option StrBuf :=
  sub_string alloc src.bytes 0 src.len

/-- The effect of string_destroy on the allocator: either nothing is
freed or the single allocation holding header and bytes is freed. -/
inductive DestroyEffect
  | noop
  | freed
deriving Repr, DecidableEq

/-- string_destroy (src/unnamed/part_001 lines 223-229): a NULL argument
returns at once freeing nothing, otherwise the allocation is freed. -/
def string_destroy : Option StrBuf → DestroyEffect
  | none => DestroyEffect.noop
  | some _ => DestroyEffect.freed

/-- string_clear (src/unnamed/part_001 lines 231-241): set len to 0 and
store a terminator at index 0; the capacity is untouched. -/
def string_clear (s : StrBuf) : Int × StrBuf :=
  (0, { s with len := 0, bytes := setByte s.bytes 0 0 })

/-- string_copy_v (src/unnamed/part_001 lines 259-265), non NULL path. -/
def string_copy_v (alloc : Nat → Bool) (dest : StrBuf) (src : List Nat)
    (len : Nat) : Int × StrBuf :=
  copy_string alloc dest src len

/-- string_append_v (src/unnamed/part_001 lines 283-289), non NULL path. -/
def string_append_v (alloc : Nat → Bool) (dest : StrBuf) (src : List Nat)
    (len : Nat) : Int × StrBuf :=
  append_string alloc dest src len

/-- string_prepend_v (src/unnamed/part_001 lines 307-313), non NULL path. -/
def string_prepend_v (alloc : Nat → Bool) (dest : StrBuf) (src : List Nat)
    (len : Nat) : Int × StrBuf :=
  prepend_string alloc dest src len

/-- string_cut (src/unnamed/part_001 lines 315-329): start is an
unsigned int, len a size_t; the range check meta->len < start + len is
performed in wrapping size_t arithmetic; on success the len bytes at
offset start are moved to offset 0 (reading before storing, hence
overlap safe), the terminator is stored at len and len is recorded. -/
def string_cut (s : StrBuf) (start0 : Nat) (len0 : Nat) : Int × StrBuf :=
  let start := start0 % W32
  let len := len0 % W64
  if s.len < (start + len) % W64 then (-ERANGE, s)
  else
    let chunk := (s.bytes.drop start).take len
    (0, { s with
          len := len,
          bytes := setByte (writeBytes s.bytes 0 chunk) len 0 })

/-- The bytes vsnprintf(buf, size, ...) stores when the fully formatted
output is out: nothing when size = 0, otherwise the first size - 1
bytes of out followed by a terminator. -/
def vsnprintf_write (buf : List Nat) (size : Nat) (out : List Nat) :
    List Nat :=
  if size = 0 then buf
  else writeBytes buf 0 (out.take (size - 1) ++ [0])

/-- string_printf (src/unnamed/part_001 lines 331-345), non NULL path,
with the fully formatted output abstracted as the byte list out:
vsnprintf is called with the current capacity as bound and returns the
untruncated output length; len is then set to that length when it is
below the capacity and to capacity - 1 otherwise. -/
def string_printf (s : StrBuf) (out : List Nat) : Int × StrBuf :=
  let res : Int := out.length
  let bytes := vsnprintf_write s.bytes s.capacity out
  let len := if out.length < s.capacity then out.length else s.capacity - 1
  (res, { len := len, capacity := s.capacity, bytes := bytes })

/-- string_reserve (src/unnamed/part_001 lines 365-374): nothing happens
when the capacity already reaches the requested size, otherwise the
capacity is set to exactly the requested size. -/
def string_reserve (alloc : Nat → Bool) (s : StrBuf) (size0 : Nat) :
    Int × StrBuf :=
  let size := size0 % W64
  if size ≤ s.capacity then (0, s)
  else set_string_capacity alloc s size

/-- string_fit (src/unnamed/part_001 lines 376-382): set the capacity to
len + 1 in size_t arithmetic. -/
def string_fit (alloc : Nat → Bool) (s : StrBuf) : Int × StrBuf :=
  set_string_capacity alloc s ((s.len + 1) % W64)

end LibStrings

namespace LibStrings

/-! Helper lemmas about the failure paths of the core primitives. -/

/-- set_string_capacity either succeeds or returns -ENOMEM leaving the
state untouched. -/
theorem set_string_capacity_cases (alloc : Nat → Bool) (s : StrBuf)
    (c : Nat) :
    (set_string_capacity alloc s c).1 = 0 ∨
      set_string_capacity alloc s c = (-ENOMEM, s) := by
  unfold set_string_capacity
  dsimp only
  split
  · left; rfl
  · right; rfl

/-- set_string_length either succeeds or returns -ENOMEM leaving the
state untouched. -/
theorem set_string_length_cases (alloc : Nat → Bool) (s : StrBuf)
    (n : Nat) :
    (set_string_length alloc s n).1 = 0 ∨
      set_string_length alloc s n = (-ENOMEM, s) := by
  unfold set_string_length
  dsimp only
  rcases set_string_capacity_cases alloc s (n % W64 * 2 + 1) with h | h
  · split
    · split
      · left; exact h
      · left; rfl
    · left; rfl
  · split
    · split
      · right; exact h
      · rename_i hc
        rw [h] at hc
        simp [ENOMEM] at hc
    · left; rfl

/-! Helper lemmas about the byte store primitives. -/

/-- writeBytes preserves the size of the buffer. -/
theorem writeBytes_length (src : List Nat) (b : List Nat) (off : Nat) :
    (writeBytes b off src).length = b.length := by
  induction src generalizing b off with
  | nil => rfl
  | cons v rest ih => rw [writeBytes, ih, List.length_set]

/-- Storing a run one position further into a one longer buffer keeps
the head byte. -/
theorem writeBytes_cons (src : List Nat) (a : Nat) (t : List Nat) (off : Nat) :
    writeBytes (a :: t) (off + 1) src = a :: writeBytes t off src := by
  induction src generalizing t off with
  | nil => rfl
  | cons v rest ih =>
    show writeBytes (a :: t.set off v) (off + 1 + 1) rest =
      a :: writeBytes (t.set off v) (off + 1) rest
    exact ih (t.set off v) (off + 1)

/-- A run of stores at offset 0 that fits in the buffer replaces its
prefix. -/
theorem writeBytes_zero (src b : List Nat) (h : src.length ≤ b.length) :
    writeBytes b 0 src = src ++ b.drop src.length := by
  induction src generalizing b with
  | nil => rfl
  | cons v rest ih =>
    cases b with
    | nil =>
      simp only [List.length_nil, List.length_cons] at h
      omega
    | cons a t =>
      have h1 : rest.length ≤ t.length := by
        simp only [List.length_cons] at h
        omega
      calc writeBytes (a :: t) 0 (v :: rest)
          = writeBytes (v :: t) 1 rest := rfl
        _ = v :: writeBytes t 0 rest := writeBytes_cons rest v t 0
        _ = v :: (rest ++ t.drop rest.length) := by rw [ih t h1]
        _ = (v :: rest) ++ (a :: t).drop (v :: rest).length := by simp

/-- A run of stores that falls entirely inside the buffer is the list
surgery replacing the bytes at offsets off to off + src.length - 1. -/
theorem writeBytes_eq_of_le (src : List Nat) (b : List Nat) (off : Nat)
    (h : off + src.length ≤ b.length) :
    writeBytes b off src = b.take off ++ src ++ b.drop (off + src.length) := by
  induction off generalizing b with
  | zero => simpa using writeBytes_zero src b (by omega)
  | succ k ih =>
    cases b with
    | nil =>
      simp only [List.length_nil] at h
      omega
    | cons a t =>
      have ht : k + src.length ≤ t.length := by
        simp only [List.length_cons] at h
        omega
      calc writeBytes (a :: t) (k + 1) src
          = a :: writeBytes t k src := writeBytes_cons src a t k
        _ = a :: (t.take k ++ src ++ t.drop (k + src.length)) := by rw [ih t ht]
        _ = (a :: t).take (k + 1) ++ src ++ (a :: t).drop (k + 1 + src.length) := by
            have e : k + 1 + src.length = (k + src.length) + 1 := by omega
            rw [e, List.drop_succ_cons, List.take_succ_cons, List.cons_append,
              List.cons_append, List.append_assoc]

/-- A store at or past the index k does not change the first k bytes. -/
theorem take_set_of_le (l : List Nat) (i k : Nat) (v : Nat) (h : k ≤ i) :
    (l.set i v).take k = l.take k := by
  induction l generalizing i k with
  | nil => simp
  | cons a t ih =>
    cases k with
    | zero => simp
    | succ m =>
      cases i with
      | zero => omega
      | succ n =>
        show a :: (t.set n v).take m = a :: t.take m
        rw [ih n m (by omega)]

/-- Taking no more than the first part of an append stays in it. -/
theorem take_append_of_le (l1 l2 : List Nat) (n : Nat) (h : n ≤ l1.length) :
    (l1 ++ l2).take n = l1.take n := by
  rw [List.take_append_eq_append_take, Nat.sub_eq_zero_of_le h,
    List.take_zero, List.append_nil]

/-- Reading just after a block followed by a zero byte yields that zero. -/
theorem get_after_block (T rest : List Nat) :
    ((T ++ [0]) ++ rest).get? T.length = some 0 := by
  rw [List.get?_append (by simp)]
  rw [List.get?_append_right (le_refl T.length)]
  simp

/-- Dropping exactly the first part of an append leaves the second. -/
theorem drop_append_of_len (l1 l2 : List Nat) (n : Nat) (h : l1.length = n) :
    (l1 ++ l2).drop n = l2 := by
  subst h
  exact List.drop_left l1 l2

/-- A store at or past the first part of an append lands in the second. -/
theorem set_append_right (l1 l2 : List Nat) (i : Nat) (v : Nat)
    (h : l1.length ≤ i) :
    (l1 ++ l2).set i v = l1 ++ l2.set (i - l1.length) v := by
  induction l1 generalizing i with
  | nil => simp
  | cons a t ih =>
    cases i with
    | zero =>
      simp only [List.length_cons] at h
      omega
    | succ j =>
      show a :: (t ++ l2).set j v = a :: (t ++ l2.set (j + 1 - (t.length + 1)) v)
      have e : j + 1 - (t.length + 1) = j - t.length := by omega
      rw [e, ih j (by simp only [List.length_cons] at h; omega)]

/-- strncpy always stores exactly n bytes. -/
theorem strncpyData_length (src : List Nat) (n : Nat) :
    (strncpyData src n).length = n := by
  unfold strncpyData
  dsimp only
  rw [List.length_append, List.length_replicate]
  have hle : ((src.takeWhile (fun c => c ≠ 0)).take n).length ≤ n := by
    rw [List.length_take]
    omega
  omega

/-- takeWhile commutes with take. -/
theorem takeWhile_take (p : Nat → Bool) (l : List Nat) (n : Nat) :
    (l.take n).takeWhile p = (l.takeWhile p).take n := by
  induction l generalizing n with
  | nil => simp
  | cons a t ih =>
    cases n with
    | zero => simp
    | succ m =>
      by_cases hp : p a
      · simp [List.takeWhile_cons, hp, ih]
      · simp [List.takeWhile_cons, hp]

/-- strncpy only ever reads the first n bytes of its source. -/
theorem strncpyData_take (src : List Nat) (n : Nat) :
    strncpyData (src.take n) n = strncpyData src n := by
  unfold strncpyData
  dsimp only
  rw [takeWhile_take, List.take_take, Nat.min_self]

/-- When the source holds no zero byte among its bytes, strncpy of its
full length copies it verbatim. -/
theorem strncpyData_eq_self (src : List Nat) (h : NoZero src) :
    strncpyData src src.length = src := by
  unfold strncpyData
  dsimp only
  have ht : src.takeWhile (fun c => c ≠ 0) = src :=
    List.takeWhile_eq_self_iff.mpr (by
      intro x hx
      simpa using h x hx)
  rw [ht, List.take_length, Nat.sub_self, List.replicate_zero, List.append_nil]

/-- A store at or past the drop point commutes with dropping. -/
theorem drop_set_of_le (l : List Nat) (i k : Nat) (v : Nat) (h : k ≤ i) :
    (l.set i v).drop k = (l.drop k).set (i - k) v := by
  induction l generalizing i k with
  | nil => simp
  | cons a t ih =>
    cases k with
    | zero => simp
    | succ m =>
      cases i with
      | zero => omega
      | succ j =>
        show (t.set j v).drop m = (t.drop m).set (j + 1 - (m + 1)) v
        have e : j + 1 - (m + 1) = j - m := by omega
        rw [e]
        exact ih j m (by omega)

/-- Sanity check: the empty string has empty content. -/
theorem empty_content_nil : (string_empty alwaysAlloc).map content = some [] := by
  decide

/-- Sanity check mirroring the spec walkthrough: copying the five bytes
of the word world into the empty string doubles the capacity to 11. -/
theorem copy_world_capacity :
    (string_copy_v alwaysAlloc { len := 0, capacity := 1, bytes := [0] }
      [119, 111, 114, 108, 100] 5).2.capacity = 11 := by decide

/-- Sanity check: an in range cut keeps exactly the requested range. -/
theorem cut_in_range_content :
    content (string_cut { len := 5, capacity := 6, bytes := [1, 2, 3, 4, 5, 0] }
      1 3).2 = [2, 3, 4] := by decide

/-- C1: the invariants bytes[length] = 0 and capacity >= length + 1 are
the intended contract, with string_empty() yielding length 0 and
capacity 1 as in src/unnamed/part_001; but the string_empty of
src/src/libstrings.c (lines 94-106) allocates the very same one
character byte and stores the terminator, yet records capacity = 0,
so its result violates capacity >= length + 1: the code of that
variant contradicts the intended contract the spec states. -/
theorem C1_empty_capacity_bug :
    string_empty_v0 alwaysAlloc = some { len := 0, capacity := 0, bytes := [0] } ∧
    ¬ Valid { len := 0, capacity := 0, bytes := [0] } ∧
    string_empty alwaysAlloc = some { len := 0, capacity := 1, bytes := [0] } ∧
    Valid { len := 0, capacity := 1, bytes := [0] } := by
  decide

/-- C2 counterexample: set_string_length performs its comparison and its
growth formula in wrapping size_t arithmetic, so with new_length =
2 ^ 64 - 1 on the empty string of capacity 1 the mathematical premise
capacity < new_length + 1 holds and the call succeeds, yet the capacity
stays 1 instead of becoming new_length * 2 + 1. -/
theorem C2_counterexample :
    (1 : Nat) < (W64 - 1) + 1 ∧
    (set_string_length alwaysAlloc { len := 0, capacity := 1, bytes := [0] }
        (W64 - 1)).1 = 0 ∧
    (set_string_length alwaysAlloc { len := 0, capacity := 1, bytes := [0] }
        (W64 - 1)).2.capacity = 1 ∧
    1 ≠ (W64 - 1) * 2 + 1 := by
  refine ⟨by decide, by decide, by decide, by decide⟩

/-- Capacity behaviour of set_string_length in the overflow free case:
growth to exactly len * 2 + 1 when capacity < len + 1 and the call
succeeds, and an unchanged capacity with guaranteed success when
capacity >= len + 1. -/
theorem set_string_length_capacity_spec (alloc : Nat → Bool) (s : StrBuf)
    (len : Nat) (hfit : len * 2 + 1 < W64) :
    (s.capacity < len + 1 → (set_string_length alloc s len).1 = 0 →
      (set_string_length alloc s len).2.capacity = len * 2 + 1) ∧
    (len + 1 ≤ s.capacity →
      (set_string_length alloc s len).1 = 0 ∧
        (set_string_length alloc s len).2.capacity = s.capacity) := by
  have h1 : len % W64 = len := Nat.mod_eq_of_lt (by omega)
  have h2 : (len + 1) % W64 = len + 1 := Nat.mod_eq_of_lt (by omega)
  have h3 : (len * 2 + 1) % W64 = len * 2 + 1 := Nat.mod_eq_of_lt hfit
  constructor
  · intro hlt hok
    unfold set_string_length set_string_capacity at hok ⊢
    dsimp only at hok ⊢
    rw [h1, h2, h3, if_pos hlt] at hok ⊢
    cases ha : alloc (len * 2 + 1) with
    | false =>
      rw [ha] at hok
      simp [ENOMEM] at hok
    | true => simp
  · intro hle
    unfold set_string_length
    dsimp only
    rw [h1, h2, if_neg (by omega)]
    exact ⟨rfl, rfl⟩

/-- Shape of a successful set_string_length call in the overflow free
case: the length is stored, the allocation still matches the capacity
field, the stored length fits below the capacity, and every prefix of
the old allocation is preserved (realloc keeps the old bytes). -/
theorem set_string_length_grow_spec (alloc : Nat → Bool) (s : StrBuf)
    (n : Nat) (hblen : s.bytes.length = s.capacity) (hn : n * 2 + 1 < W64)
    (hok : (set_string_length alloc s n).1 = 0) :
    (set_string_length alloc s n).2.len = n ∧
    (set_string_length alloc s n).2.bytes.length =
      (set_string_length alloc s n).2.capacity ∧
    n + 1 ≤ (set_string_length alloc s n).2.capacity ∧
    ∀ k, k ≤ s.bytes.length →
      (set_string_length alloc s n).2.bytes.take k = s.bytes.take k := by
  have h1 : n % W64 = n := Nat.mod_eq_of_lt (by omega)
  have h2 : (n + 1) % W64 = n + 1 := Nat.mod_eq_of_lt (by omega)
  have h3 : (n * 2 + 1) % W64 = n * 2 + 1 := Nat.mod_eq_of_lt hn
  unfold set_string_length set_string_capacity at hok ⊢
  dsimp only at hok ⊢
  rw [h1, h2, h3] at hok ⊢
  by_cases hc : s.capacity < n + 1
  · rw [if_pos hc] at hok ⊢
    cases ha : alloc (n * 2 + 1) with
    | false =>
      rw [ha] at hok
      simp [ENOMEM] at hok
    | true =>
      rw [ha] at hok
      rw [if_pos (Eq.refl true)] at hok ⊢
      dsimp only at hok ⊢
      rw [if_neg (by norm_num : ¬ (0 : Int) < 0)] at hok ⊢
      dsimp only
      refine ⟨rfl, ?_, by omega, ?_⟩
      · rw [List.length_append, List.length_take, List.length_replicate]
        omega
      · intro k hk
        rw [take_append_of_le _ _ _ (by rw [List.length_take]; omega),
          List.take_take]
        congr 1
        omega
  · rw [if_neg hc]
    dsimp only
    refine ⟨rfl, hblen, by omega, ?_⟩
    intro k hk
    rfl

/-- C2 amended: provided the doubling target new_length * 2 + 1 does not
overflow size_t, a successful set_string_length call that found
capacity < new_length + 1 leaves the capacity at exactly
new_length * 2 + 1, and a call that found capacity >= new_length + 1
succeeds and leaves the capacity unchanged; in general both the
comparison and the target are computed modulo 2 ^ 64. -/
theorem C2_growth_formula (alloc : Nat → Bool) (s : StrBuf) (len : Nat)
    (hfit : len * 2 + 1 < W64) :
    (s.capacity < len + 1 → (set_string_length alloc s len).1 = 0 →
      (set_string_length alloc s len).2.capacity = len * 2 + 1) ∧
    (len + 1 ≤ s.capacity →
      (set_string_length alloc s len).1 = 0 ∧
        (set_string_length alloc s len).2.capacity = s.capacity) :=
  set_string_length_capacity_spec alloc s len hfit

/-- C2 witness for the amended growth formula at a concrete input. -/
theorem C2_growth_formula_witness :
    (set_string_length alwaysAlloc { len := 0, capacity := 1, bytes := [0] }
        3).1 = 0 ∧
    (set_string_length alwaysAlloc { len := 0, capacity := 1, bytes := [0] }
        3).2.capacity = 3 * 2 + 1 := by
  refine ⟨by decide, ?_⟩
  exact (C2_growth_formula alwaysAlloc
    { len := 0, capacity := 1, bytes := [0] } 3 (by decide)).1 (by decide)
    (by decide)

/-- C3 counterexample: the range check of string_cut is the wrapping
size_t comparison meta.len < start + len, not an overflow safe one:
on the string of length 5 with start = 1 and len = 2 ^ 64 - 1 the
mathematical sum start + len exceeds 5, yet the sum wraps to 0 and the
call succeeds instead of failing with -ERANGE. -/
theorem C3_counterexample :
    5 < 1 + (W64 - 1) ∧
    (string_cut { len := 5, capacity := 6, bytes := [1, 2, 3, 4, 5, 0] } 1
        (W64 - 1)).1 = 0 := by
  refine ⟨by decide, by decide⟩

/-- C3 amended: string_cut fails with -ERANGE exactly when
length < (start mod 2 ^ 32 + len) mod 2 ^ 64, the sum being computed in
wrapping unsigned arithmetic rather than overflow safe arithmetic; on
that failure the string is left completely unchanged. -/
theorem C3_cut_range_check (s : StrBuf) (start len : Nat) :
    ((string_cut s start len).1 = -ERANGE ↔
      s.len < (start % W32 + len % W64) % W64) ∧
    ((string_cut s start len).1 = -ERANGE → (string_cut s start len).2 = s) := by
  unfold string_cut
  dsimp only
  split
  · rename_i hlt
    exact ⟨iff_of_true rfl hlt, fun _ => rfl⟩
  · rename_i hge
    constructor
    · constructor
      · intro h
        simp [ERANGE] at h
      · intro h
        exact absurd h hge
    · intro h
      simp [ERANGE] at h

/-- C3 witness: the spec example, a string of length 5 cut with
start = 3 and len = 4, fails with -ERANGE and is left unchanged. -/
theorem C3_cut_range_check_witness :
    (string_cut { len := 5, capacity := 6, bytes := [1, 2, 3, 4, 5, 0] } 3
        4).1 = -ERANGE ∧
    (string_cut { len := 5, capacity := 6, bytes := [1, 2, 3, 4, 5, 0] } 3
        4).2 = { len := 5, capacity := 6, bytes := [1, 2, 3, 4, 5, 0] } := by
  have h := C3_cut_range_check
    { len := 5, capacity := 6, bytes := [1, 2, 3, 4, 5, 0] } 3 4
  have he : (string_cut { len := 5, capacity := 6, bytes := [1, 2, 3, 4, 5, 0] }
      3 4).1 = -ERANGE := h.1.mpr (by decide)
  exact ⟨he, h.2 he⟩

/-- C5: when string_copy_v, string_append_v, string_prepend_v,
string_reserve or string_fit fails with -ENOMEM because reallocation
fails, the target string is left completely unchanged: content, length
and capacity. -/
theorem C5_oom_noop (alloc : Nat → Bool) (dest : StrBuf) (src : List Nat)
    (len size : Nat) :
    ((string_copy_v alloc dest src len).1 = -ENOMEM →
      (string_copy_v alloc dest src len).2 = dest) ∧
    ((string_append_v alloc dest src len).1 = -ENOMEM →
      (string_append_v alloc dest src len).2 = dest) ∧
    ((string_prepend_v alloc dest src len).1 = -ENOMEM →
      (string_prepend_v alloc dest src len).2 = dest) ∧
    ((string_reserve alloc dest size).1 = -ENOMEM →
      (string_reserve alloc dest size).2 = dest) ∧
    ((string_fit alloc dest).1 = -ENOMEM →
      (string_fit alloc dest).2 = dest) := by
  refine ⟨?_, ?_, ?_, ?_, ?_⟩
  · unfold string_copy_v copy_string
    dsimp only
    rcases set_string_length_cases alloc dest (len % W64) with h | h
    · split
      · intro hc
        rw [hc] at h
        simp [ENOMEM] at h
      · intro hc
        simp [ENOMEM] at hc
    · split
      · intro _
        rw [h]
      · intro hc
        simp [ENOMEM] at hc
  · unfold string_append_v append_string
    dsimp only
    rcases set_string_length_cases alloc dest ((dest.len + len % W64) % W64)
      with h | h
    · split
      · intro hc
        rw [hc] at h
        simp [ENOMEM] at h
      · intro hc
        simp [ENOMEM] at hc
    · split
      · intro _
        rw [h]
      · intro hc
        simp [ENOMEM] at hc
  · unfold string_prepend_v prepend_string
    dsimp only
    rcases set_string_length_cases alloc dest ((dest.len + len % W64) % W64)
      with h | h
    · split
      · intro hc
        rw [hc] at h
        simp [ENOMEM] at h
      · intro hc
        simp [ENOMEM] at hc
    · split
      · intro _
        rw [h]
      · intro hc
        simp [ENOMEM] at hc
  · unfold string_reserve
    dsimp only
    split
    · intro hc
      simp [ENOMEM] at hc
    · rcases set_string_capacity_cases alloc dest (size % W64) with h | h
      · intro hc
        rw [hc] at h
        simp [ENOMEM] at h
      · intro _
        rw [h]
  · unfold string_fit
    rcases set_string_capacity_cases alloc dest ((dest.len + 1) % W64)
      with h | h
    · intro hc
      rw [hc] at h
      simp [ENOMEM] at h
    · intro _
      rw [h]

/-- C5 witness: with an allocator that refuses every request, the five
operations fail with -ENOMEM on a concrete string and leave it
unchanged. -/
theorem C5_oom_noop_witness :
    (string_copy_v neverAlloc { len := 0, capacity := 1, bytes := [0] }
        [7, 8] 2).2 = { len := 0, capacity := 1, bytes := [0] } ∧
    (string_append_v neverAlloc { len := 0, capacity := 1, bytes := [0] }
        [7, 8] 2).2 = { len := 0, capacity := 1, bytes := [0] } ∧
    (string_prepend_v neverAlloc { len := 0, capacity := 1, bytes := [0] }
        [7, 8] 2).2 = { len := 0, capacity := 1, bytes := [0] } ∧
    (string_reserve neverAlloc { len := 0, capacity := 1, bytes := [0] }
        9).2 = { len := 0, capacity := 1, bytes := [0] } ∧
    (string_fit neverAlloc { len := 0, capacity := 1, bytes := [0] }).2 =
      { len := 0, capacity := 1, bytes := [0] } := by
  have h := C5_oom_noop neverAlloc { len := 0, capacity := 1, bytes := [0] }
    [7, 8] 2 9
  exact ⟨h.1 (by decide), h.2.1 (by decide), h.2.2.1 (by decide),
    h.2.2.2.1 (by decide), h.2.2.2.2 (by decide)⟩

/-- Success and the resulting capacity of string_copy_v are those of the
underlying set_string_length call. -/
theorem copy_string_proj (alloc : Nat → Bool) (dest : StrBuf) (src : List Nat)
    (len : Nat) :
    (string_copy_v alloc dest src len).1 =
      (set_string_length alloc dest (len % W64)).1 ∧
    (string_copy_v alloc dest src len).2.capacity =
      (set_string_length alloc dest (len % W64)).2.capacity := by
  unfold string_copy_v copy_string
  dsimp only
  rcases set_string_length_cases alloc dest (len % W64) with h | h
  · rw [if_neg (by omega)]
    exact ⟨by dsimp only; omega, rfl⟩
  · rw [h]
    rw [if_pos (by norm_num [ENOMEM])]
    exact ⟨rfl, rfl⟩

/-- Success and the resulting capacity of string_append_v are those of
the underlying set_string_length call. -/
theorem append_string_proj (alloc : Nat → Bool) (dest : StrBuf)
    (src : List Nat) (len : Nat) :
    (string_append_v alloc dest src len).1 =
      (set_string_length alloc dest ((dest.len + len % W64) % W64)).1 ∧
    (string_append_v alloc dest src len).2.capacity =
      (set_string_length alloc dest ((dest.len + len % W64) % W64)).2.capacity := by
  unfold string_append_v append_string
  dsimp only
  rcases set_string_length_cases alloc dest ((dest.len + len % W64) % W64)
    with h | h
  · rw [if_neg (by omega)]
    exact ⟨by dsimp only; omega, rfl⟩
  · rw [h]
    rw [if_pos (by norm_num [ENOMEM])]
    exact ⟨rfl, rfl⟩

/-- Success and the resulting capacity of string_prepend_v are those of
the underlying set_string_length call. -/
theorem prepend_string_proj (alloc : Nat → Bool) (dest : StrBuf)
    (src : List Nat) (len : Nat) :
    (string_prepend_v alloc dest src len).1 =
      (set_string_length alloc dest ((dest.len + len % W64) % W64)).1 ∧
    (string_prepend_v alloc dest src len).2.capacity =
      (set_string_length alloc dest ((dest.len + len % W64) % W64)).2.capacity := by
  unfold string_prepend_v prepend_string
  dsimp only
  rcases set_string_length_cases alloc dest ((dest.len + len % W64) % W64)
    with h | h
  · rw [if_neg (by omega)]
    exact ⟨by dsimp only; omega, rfl⟩
  · rw [h]
    rw [if_pos (by norm_num [ENOMEM])]
    exact ⟨rfl, rfl⟩

/-- A successful set_string_length whose target arithmetic does not
overflow never shrinks the capacity. -/
theorem set_string_length_capacity_le (alloc : Nat → Bool) (s : StrBuf)
    (n : Nat) (hn : n * 2 + 1 < W64)
    (hok : (set_string_length alloc s n).1 = 0) :
    s.capacity ≤ (set_string_length alloc s n).2.capacity := by
  rcases Nat.lt_or_ge s.capacity (n + 1) with hc | hc
  · rw [(set_string_length_capacity_spec alloc s n hn).1 hc hok]
    omega
  · rw [((set_string_length_capacity_spec alloc s n hn).2 hc).2]

/-- C10: string_destroy on an absent (NULL) string is a no-op that frees
nothing, by the explicit NULL guard of the code. -/
theorem C10_destroy_null_noop : string_destroy none = DestroyEffect.noop := rfl

/-- C7: on every valid string, a successful string_fit leaves the
capacity at exactly length + 1, with the length and the content
unchanged. -/
theorem C7_fit_exact (alloc : Nat → Bool) (s : StrBuf) (h : Valid s)
    (hok : (string_fit alloc s).1 = 0) :
    (string_fit alloc s).2.capacity = s.len + 1 ∧
    (string_fit alloc s).2.len = s.len ∧
    content (string_fit alloc s).2 = content s := by
  obtain ⟨hblen, hle, hterm, hcap⟩ := h
  have hm : (s.len + 1) % W64 = s.len + 1 := Nat.mod_eq_of_lt (by omega)
  unfold string_fit set_string_capacity at hok ⊢
  dsimp only at hok ⊢
  rw [hm] at hok ⊢
  rw [hm] at hok ⊢
  cases ha : alloc (s.len + 1) with
  | false =>
    rw [ha] at hok
    simp [ENOMEM] at hok
  | true =>
    rw [if_pos rfl]
    refine ⟨rfl, rfl, ?_⟩
    rw [content, content]
    dsimp only
    have h0 : s.len + 1 - s.bytes.length = 0 := by omega
    rw [h0, List.replicate_zero, List.append_nil, List.take_take]
    congr 1
    omega

/-- C7 witness: fitting a concrete valid string of length 2 and
capacity 6 yields capacity 3 with length and content unchanged. -/
theorem C7_fit_exact_witness :
    (string_fit alwaysAlloc
        { len := 2, capacity := 6, bytes := [4, 5, 0, 9, 9, 9] }).2.capacity =
      2 + 1 ∧
    (string_fit alwaysAlloc
        { len := 2, capacity := 6, bytes := [4, 5, 0, 9, 9, 9] }).2.len = 2 ∧
    content (string_fit alwaysAlloc
        { len := 2, capacity := 6, bytes := [4, 5, 0, 9, 9, 9] }).2 =
      content { len := 2, capacity := 6, bytes := [4, 5, 0, 9, 9, 9] } := by
  exact C7_fit_exact alwaysAlloc
    { len := 2, capacity := 6, bytes := [4, 5, 0, 9, 9, 9] } (by decide)
    (by decide)

/-- C4: string_printf returns the untruncated length the formatted
output would require; when that length is strictly below the capacity
the full output is written and recorded as the length, otherwise the
write is truncated to capacity - 1 bytes plus terminator and the length
is recorded as capacity - 1; the capacity is never grown; in both cases
the stored length is followed by a terminator byte. -/
theorem C4_printf_semantics (s : StrBuf) (out : List Nat) (h : Valid s) :
    (string_printf s out).1 = (out.length : Int) ∧
    (string_printf s out).2.capacity = s.capacity ∧
    (out.length < s.capacity →
      (string_printf s out).2.len = out.length ∧
      content (string_printf s out).2 = out) ∧
    (s.capacity ≤ out.length →
      (string_printf s out).2.len = s.capacity - 1 ∧
      content (string_printf s out).2 = out.take (s.capacity - 1)) ∧
    (string_printf s out).2.bytes.get? (string_printf s out).2.len =
      some 0 := by
  obtain ⟨hblen, hle, hterm, hcap⟩ := h
  have hcap0 : ¬ s.capacity = 0 := by omega
  have hwlen : (out.take (s.capacity - 1) ++ [0]).length ≤ s.bytes.length := by
    rw [List.length_append, List.length_take]
    simp only [List.length_cons, List.length_nil]
    omega
  have hw := writeBytes_zero (out.take (s.capacity - 1) ++ [0]) s.bytes hwlen
  unfold string_printf vsnprintf_write
  dsimp only
  rw [if_neg hcap0, hw]
  refine ⟨rfl, rfl, ?_, ?_, ?_⟩
  · intro hfit
    have hout : out.take (s.capacity - 1) = out :=
      List.take_of_length_le (by omega)
    rw [hout, if_pos hfit]
    refine ⟨rfl, ?_⟩
    rw [content]
    dsimp only
    rw [take_append_of_le _ _ _ (by simp), take_append_of_le _ _ _ (le_refl _),
      List.take_length]
  · intro htrunc
    have hnfit : ¬ out.length < s.capacity := by omega
    rw [if_neg hnfit]
    refine ⟨rfl, ?_⟩
    rw [content]
    dsimp only
    have hlen1 : (out.take (s.capacity - 1)).length = s.capacity - 1 := by
      rw [List.length_take]
      omega
    rw [take_append_of_le _ _ _ (by simp; omega),
      take_append_of_le _ _ _ (le_of_eq hlen1.symm), List.take_take]
    congr 1
    omega
  · by_cases hfit : out.length < s.capacity
    · rw [if_pos hfit]
      have hlen1 : (out.take (s.capacity - 1)).length = out.length := by
        rw [List.length_take]
        omega
      rw [← hlen1]
      exact get_after_block _ _
    · rw [if_neg hfit]
      have hlen1 : (out.take (s.capacity - 1)).length = s.capacity - 1 := by
        rw [List.length_take]
        omega
      nth_rewrite 3 [← hlen1]
      exact get_after_block _ _

/-- C4 witness: the spec example, a buffer of capacity 32 receiving a
14 byte output, returns 14, sets the length to 14 and writes the full
content without growing the capacity. -/
theorem C4_printf_semantics_witness :
    (string_printf { len := 0, capacity := 32, bytes := 0 :: List.replicate 31 170 }
        (List.replicate 14 65)).1 = 14 ∧
    (string_printf { len := 0, capacity := 32, bytes := 0 :: List.replicate 31 170 }
        (List.replicate 14 65)).2.len = 14 ∧
    content (string_printf { len := 0, capacity := 32, bytes := 0 :: List.replicate 31 170 }
        (List.replicate 14 65)).2 = List.replicate 14 65 ∧
    (string_printf { len := 0, capacity := 32, bytes := 0 :: List.replicate 31 170 }
        (List.replicate 14 65)).2.capacity = 32 := by
  have h := C4_printf_semantics
    { len := 0, capacity := 32, bytes := 0 :: List.replicate 31 170 }
    (List.replicate 14 65) (by decide)
  exact ⟨h.1, (h.2.2.1 (by decide)).1, (h.2.2.1 (by decide)).2, h.2.1⟩

/-- A valid string that holds a zero byte followed by nonzero content
bytes, built through the public operations themselves: copy xy into the
empty string, then prepend the two bytes a, NUL. -/
def dupCexBase : StrBuf :=
  (string_prepend_v alwaysAlloc
    (string_copy_v alwaysAlloc { len := 0, capacity := 1, bytes := [0] }
      [120, 121] 2).2
    [97, 0] 2).2

/-- C8 counterexample: string_dup copies with strncpy, which truncates
at the first zero byte of the source and zero fills the rest, so the
duplicate of a valid string whose content holds a zero byte followed by
nonzero bytes has the right length but different content bytes. -/
theorem C8_counterexample :
    Valid dupCexBase ∧
    content dupCexBase = [97, 0, 120, 121] ∧
    (string_dup alwaysAlloc dupCexBase).map StrBuf.len =
      some dupCexBase.len ∧
    (string_dup alwaysAlloc dupCexBase).map content = some [97, 0, 0, 0] ∧
    ¬ (string_dup alwaysAlloc dupCexBase).map content =
      some (content dupCexBase) := by
  decide

/-- C8 amended: on a valid string b, a successful string_dup returns a
fresh string of equal length and capacity b.len + 1 whose content is
the strncpy image of the content of b, that is the content truncated at
its first zero byte and zero filled up to the length; in particular the
content is byte identical whenever the content of b holds no zero
byte. -/
theorem C8_dup_strncpy (alloc : Nat → Bool) (b : StrBuf) (h : Valid b)
    (d : StrBuf) (hd : string_dup alloc b = some d) :
    d.len = b.len ∧ d.capacity = b.len + 1 ∧
    content d = strncpyData (content b) b.len ∧
    (NoZero (content b) → content d = content b) := by
  obtain ⟨hblen, hle, hterm, hcap⟩ := h
  have hm1 : b.len % W64 = b.len := Nat.mod_eq_of_lt (by omega)
  have hm2 : (b.len + 1) % W64 = b.len + 1 := Nat.mod_eq_of_lt (by omega)
  unfold string_dup sub_string at hd
  dsimp only at hd
  rw [Nat.zero_mod, hm1, hm2] at hd
  cases ha : alloc (b.len + 1) with
  | false =>
    rw [ha] at hd
    simp at hd
  | true =>
    rw [ha, if_pos (Eq.refl true)] at hd
    obtain rfl := Option.some.inj hd
    have hS : (strncpyData b.bytes b.len).length = b.len :=
      strncpyData_length _ _
    have h3 : content
        { len := b.len, capacity := b.len + 1,
          bytes := setByte
            (writeBytes (List.replicate (b.len + 1) PAD) 0
              (strncpyData (b.bytes.drop 0) b.len)) b.len 0 } =
        strncpyData (content b) b.len := by
      rw [content]
      dsimp only
      rw [List.drop_zero]
      unfold setByte
      rw [take_set_of_le _ _ _ _ (le_refl b.len)]
      rw [writeBytes_zero _ _ (by
        rw [hS, List.length_replicate]
        omega)]
      rw [take_append_of_le _ _ _ (le_of_eq hS.symm),
        List.take_of_length_le (le_of_eq hS)]
      unfold content
      rw [strncpyData_take]
    refine ⟨rfl, rfl, h3, ?_⟩
    intro hz
    rw [h3]
    have hlenc : (content b).length = b.len := by
      unfold content
      rw [List.length_take]
      omega
    rw [← hlenc]
    exact strncpyData_eq_self _ hz

/-- C8 witness: duplicating a concrete valid string without zero
content bytes yields equal length, capacity length + 1 and byte
identical content. -/
theorem C8_dup_strncpy_witness :
    ({ len := 2, capacity := 3, bytes := [5, 6, 0] } : StrBuf).len =
      ({ len := 2, capacity := 4, bytes := [5, 6, 0, 7] } : StrBuf).len ∧
    ({ len := 2, capacity := 3, bytes := [5, 6, 0] } : StrBuf).capacity =
      ({ len := 2, capacity := 4, bytes := [5, 6, 0, 7] } : StrBuf).len + 1 ∧
    content ({ len := 2, capacity := 3, bytes := [5, 6, 0] } : StrBuf) =
      strncpyData (content { len := 2, capacity := 4, bytes := [5, 6, 0, 7] })
        ({ len := 2, capacity := 4, bytes := [5, 6, 0, 7] } : StrBuf).len ∧
    content ({ len := 2, capacity := 3, bytes := [5, 6, 0] } : StrBuf) =
      content { len := 2, capacity := 4, bytes := [5, 6, 0, 7] } := by
  have h := C8_dup_strncpy alwaysAlloc
    { len := 2, capacity := 4, bytes := [5, 6, 0, 7] } (by decide)
    { len := 2, capacity := 3, bytes := [5, 6, 0] } (by decide)
  exact ⟨h.1, h.2.1, h.2.2.1, h.2.2.2 (by decide)⟩

/-- C9 counterexample: a successful string_copy_v can shrink the
capacity, because the doubling target is computed in wrapping size_t
arithmetic: copying with len = 2 ^ 63 onto a string of capacity 5
requests capacity (2 ^ 64 + 1) mod 2 ^ 64 = 1, and with the allocation
granted the capacity drops from 5 to 1. -/
theorem C9_counterexample :
    (string_copy_v alwaysAlloc
        { len := 0, capacity := 5, bytes := [0, 9, 9, 9, 9] } [1]
        (2 ^ 63)).1 = 0 ∧
    (string_copy_v alwaysAlloc
        { len := 0, capacity := 5, bytes := [0, 9, 9, 9, 9] } [1]
        (2 ^ 63)).2.capacity = 1 ∧
    (1 : Nat) <
      ({ len := 0, capacity := 5, bytes := [0, 9, 9, 9, 9] } : StrBuf).capacity := by
  have h1 : (2 ^ 63 : Nat) % W64 = 2 ^ 63 := by norm_num [W64]
  have h2 : ((2 ^ 63 : Nat) + 1) % W64 = 2 ^ 63 + 1 := by norm_num [W64]
  have h3 : ((2 ^ 63 : Nat) * 2 + 1) % W64 = 1 := by norm_num [W64]
  unfold string_copy_v copy_string set_string_length set_string_capacity
  dsimp only [alwaysAlloc]
  rw [h1, h1, h2, h3]
  rw [if_pos (by norm_num : (5 : Nat) < 2 ^ 63 + 1)]
  rw [if_pos (Eq.refl true)]
  dsimp only
  rw [if_neg (by norm_num : ¬ (0 : Int) < 0)]
  dsimp only
  rw [if_neg (by norm_num : ¬ (0 : Int) < 0)]
  exact ⟨rfl, rfl, by norm_num⟩

/-- C9 amended: as long as the doubling target arithmetic does not
overflow size_t, no successful string_copy_v, string_append_v,
string_prepend_v, string_cut, string_clear or string_reserve reduces
the capacity (with len = 2 ^ 63 and beyond the wrapped target can
shrink it); copying a length that already fits below the capacity
leaves the capacity unchanged. -/
theorem C9_capacity_monotone (alloc : Nat → Bool) (s : StrBuf)
    (src : List Nat) (len size start : Nat) :
    (len * 2 + 1 < W64 → (string_copy_v alloc s src len).1 = 0 →
      s.capacity ≤ (string_copy_v alloc s src len).2.capacity) ∧
    ((s.len + len) * 2 + 1 < W64 → (string_append_v alloc s src len).1 = 0 →
      s.capacity ≤ (string_append_v alloc s src len).2.capacity) ∧
    ((s.len + len) * 2 + 1 < W64 → (string_prepend_v alloc s src len).1 = 0 →
      s.capacity ≤ (string_prepend_v alloc s src len).2.capacity) ∧
    (string_cut s start len).2.capacity = s.capacity ∧
    (string_clear s).2.capacity = s.capacity ∧
    ((string_reserve alloc s size).1 = 0 →
      s.capacity ≤ (string_reserve alloc s size).2.capacity) ∧
    (len + 1 ≤ s.capacity → s.capacity < W64 →
      (string_copy_v alloc s src len).2.capacity = s.capacity) := by
  refine ⟨?_, ?_, ?_, ?_, ?_, ?_, ?_⟩
  · intro hn hok
    rw [(copy_string_proj alloc s src len).1] at hok
    rw [(copy_string_proj alloc s src len).2]
    have hmod := Nat.mod_le len W64
    exact set_string_length_capacity_le alloc s (len % W64) (by omega) hok
  · intro hn hok
    rw [(append_string_proj alloc s src len).1] at hok
    rw [(append_string_proj alloc s src len).2]
    have hmod := Nat.mod_le len W64
    have hmod2 := Nat.mod_le (s.len + len % W64) W64
    exact set_string_length_capacity_le alloc s ((s.len + len % W64) % W64)
      (by omega) hok
  · intro hn hok
    rw [(prepend_string_proj alloc s src len).1] at hok
    rw [(prepend_string_proj alloc s src len).2]
    have hmod := Nat.mod_le len W64
    have hmod2 := Nat.mod_le (s.len + len % W64) W64
    exact set_string_length_capacity_le alloc s ((s.len + len % W64) % W64)
      (by omega) hok
  · unfold string_cut
    dsimp only
    split
    · rfl
    · rfl
  · rfl
  · intro hok
    unfold string_reserve at hok ⊢
    dsimp only at hok ⊢
    split at hok
    · rename_i hsz
      rw [if_pos hsz]
    · rename_i hsz
      rw [if_neg hsz]
      unfold set_string_capacity at hok ⊢
      dsimp only at hok ⊢
      rw [Nat.mod_mod_of_dvd size (dvd_refl W64)] at hok ⊢
      cases ha : alloc (size % W64) with
      | false =>
        rw [ha] at hok
        simp [ENOMEM] at hok
      | true =>
        rw [if_pos (Eq.refl true)]
        dsimp only
        omega
  · intro hle hcw
    rw [(copy_string_proj alloc s src len).2]
    have hm : len % W64 = len := Nat.mod_eq_of_lt (by omega)
    have hm2 : (len + 1) % W64 = len + 1 := Nat.mod_eq_of_lt (by omega)
    unfold set_string_length
    dsimp only
    rw [hm, hm, hm2, if_neg (by omega)]

/-- Under the oracle that grants every allocation, set_string_length
always succeeds. -/
theorem set_string_length_alwaysAlloc (s : StrBuf) (n : Nat) :
    (set_string_length alwaysAlloc s n).1 = 0 := by
  unfold set_string_length set_string_capacity
  dsimp only [alwaysAlloc]
  split
  · rw [if_pos (Eq.refl true)]
    dsimp only
    rw [if_neg (by norm_num : ¬ (0 : Int) < 0)]
  · rfl

/-- Shape of the buffer after a successful string_prepend_v in the
overflow free case: the new length is cur_len + n, and the storage is
the strncpy image of the prepended bytes, followed by the old content,
followed by some nonempty leftover region (which holds the terminator
store). -/
theorem prepend_string_success_shape (alloc : Nat → Bool) (dest : StrBuf)
    (X : List Nat) (n : Nat) (hblen : dest.bytes.length = dest.capacity)
    (hle : dest.len + 1 ≤ dest.capacity) (hn64 : n < W64)
    (hfit : (dest.len + n) * 2 + 1 < W64)
    (hok : (string_prepend_v alloc dest X n).1 = 0) :
    ∃ c1 : Nat, ∃ tail : List Nat, 1 ≤ tail.length ∧
      (string_prepend_v alloc dest X n).2 =
        { len := dest.len + n, capacity := c1,
          bytes := strncpyData X n ++ dest.bytes.take dest.len ++ tail } := by
  have hmn : n % W64 = n := Nat.mod_eq_of_lt hn64
  have hsum : (dest.len + n) % W64 = dest.len + n := Nat.mod_eq_of_lt (by omega)
  unfold string_prepend_v prepend_string at hok ⊢
  dsimp only at hok ⊢
  rw [hmn, hsum] at hok ⊢
  rcases set_string_length_cases alloc dest (dest.len + n) with hok0 | hbad
  case inr =>
    rw [hbad] at hok
    simp [ENOMEM] at hok
  case inl =>
  obtain ⟨hglen, hgblen, hgcap, hgpre⟩ :=
    set_string_length_grow_spec alloc dest (dest.len + n) hblen hfit hok0
  rw [if_neg (by omega)]
  dsimp only
  refine ⟨(set_string_length alloc dest (dest.len + n)).2.capacity,
    ((set_string_length alloc dest (dest.len + n)).2.bytes.drop
      (n + dest.len)).set 0 0, ?_, ?_⟩
  · rw [List.length_set, List.length_drop, hgblen]
    omega
  · have hC0len : (dest.bytes.take dest.len).length = dest.len := by
      rw [List.length_take]
      omega
    have hpre : (set_string_length alloc dest (dest.len + n)).2.bytes.take
        dest.len = dest.bytes.take dest.len := hgpre dest.len (by omega)
    simp only [StrBuf.mk.injEq]
    refine ⟨hglen, trivial, ?_⟩
    rw [hpre]
    rw [writeBytes_eq_of_le (dest.bytes.take dest.len) _ n
      (by rw [hC0len, hgblen]; omega)]
    rw [hC0len]
    rw [writeBytes_zero (strncpyData X n) _ (by
      rw [strncpyData_length]
      simp only [List.length_append, List.length_take, List.length_drop]
      omega)]
    rw [strncpyData_length]
    have hAlen : ((set_string_length alloc dest
        (dest.len + n)).2.bytes.take n).length = n := by
      rw [List.length_take]
      omega
    rw [List.append_assoc, drop_append_of_len _ _ _ hAlen]
    unfold setByte
    rw [set_append_right _ _ _ _ (by rw [strncpyData_length]; omega)]
    rw [strncpyData_length]
    have e1 : dest.len + n - n = dest.len := by omega
    rw [e1]
    rw [set_append_right _ _ _ _ (le_of_eq hC0len)]
    rw [hC0len]
    have e2 : dest.len - dest.len = 0 := by omega
    rw [e2, ← List.append_assoc]

/-- C9 witness: the six operations at concrete inputs where they
succeed, with the capacity never decreasing and the fitting copy
leaving it unchanged. -/
theorem C9_capacity_monotone_witness :
    (5 : Nat) ≤ (string_copy_v alwaysAlloc
      { len := 0, capacity := 5, bytes := [0, 9, 9, 9, 9] } [7, 8]
      2).2.capacity ∧
    (5 : Nat) ≤ (string_append_v alwaysAlloc
      { len := 0, capacity := 5, bytes := [0, 9, 9, 9, 9] } [7, 8]
      2).2.capacity ∧
    (5 : Nat) ≤ (string_prepend_v alwaysAlloc
      { len := 0, capacity := 5, bytes := [0, 9, 9, 9, 9] } [7, 8]
      2).2.capacity ∧
    (string_cut { len := 0, capacity := 5, bytes := [0, 9, 9, 9, 9] } 0
      2).2.capacity = 5 ∧
    (string_clear
      { len := 0, capacity := 5, bytes := [0, 9, 9, 9, 9] }).2.capacity = 5 ∧
    (5 : Nat) ≤ (string_reserve alwaysAlloc
      { len := 0, capacity := 5, bytes := [0, 9, 9, 9, 9] } 4).2.capacity ∧
    (string_copy_v alwaysAlloc
      { len := 0, capacity := 5, bytes := [0, 9, 9, 9, 9] } [7, 8]
      2).2.capacity = 5 := by
  have h := C9_capacity_monotone alwaysAlloc
    { len := 0, capacity := 5, bytes := [0, 9, 9, 9, 9] } [7, 8] 2 4 0
  exact ⟨h.1 (by decide) (by decide), h.2.1 (by decide) (by decide),
    h.2.2.1 (by decide) (by decide), h.2.2.2.1, h.2.2.2.2.1,
    h.2.2.2.2.2.1 (by decide), h.2.2.2.2.2.2 (by decide) (by decide)⟩

/-- C6 amended: on a valid string, provided the prepended length is
below 2 ^ 32 (the width of the unsigned int start parameter of
string_cut) and the doubling target (cur_len + n) * 2 + 1 does not
overflow size_t, a successful string_prepend_v followed by
string_cut(dest, n, old length) succeeds and restores exactly the old
content and length. -/
theorem C6_prepend_cut_roundtrip (alloc : Nat → Bool) (dest : StrBuf)
    (X : List Nat) (n : Nat) (h : Valid dest) (hn32 : n < W32)
    (hfit : (dest.len + n) * 2 + 1 < W64)
    (hok : (string_prepend_v alloc dest X n).1 = 0) :
    (string_cut (string_prepend_v alloc dest X n).2 n dest.len).1 = 0 ∧
    content (string_cut (string_prepend_v alloc dest X n).2 n dest.len).2 =
      content dest ∧
    (string_cut (string_prepend_v alloc dest X n).2 n dest.len).2.len =
      dest.len := by
  obtain ⟨hblen, hle, hterm, hcap⟩ := h
  have hW : W32 < W64 := by norm_num [W32, W64]
  have hn64 : n < W64 := by omega
  obtain ⟨c1, tail, htail, hshape⟩ :=
    prepend_string_success_shape alloc dest X n hblen hle hn64 hfit hok
  rw [hshape]
  unfold string_cut
  dsimp only
  have hms : n % W32 = n := Nat.mod_eq_of_lt hn32
  have hml : dest.len % W64 = dest.len := Nat.mod_eq_of_lt (by omega)
  have hsum : (n + dest.len) % W64 = n + dest.len := Nat.mod_eq_of_lt (by omega)
  rw [hms, hml, hsum]
  rw [if_neg (by omega : ¬ dest.len + n < n + dest.len)]
  dsimp only
  have hS : (strncpyData X n).length = n := strncpyData_length X n
  have hC0 : (dest.bytes.take dest.len).length = dest.len := by
    rw [List.length_take]
    omega
  have hchunk :
      ((strncpyData X n ++ dest.bytes.take dest.len ++ tail).drop n).take
        dest.len = dest.bytes.take dest.len := by
    rw [List.append_assoc, drop_append_of_len _ _ _ hS]
    rw [take_append_of_le _ _ _ (le_of_eq hC0.symm)]
    exact List.take_of_length_le (le_of_eq hC0)
  rw [hchunk]
  refine ⟨rfl, ?_, rfl⟩
  rw [content]
  dsimp only
  unfold setByte
  rw [take_set_of_le _ _ _ _ (le_refl dest.len)]
  rw [writeBytes_zero _ _ (by
    rw [hC0]
    simp only [List.length_append]
    omega)]
  rw [take_append_of_le _ _ _ (le_of_eq hC0.symm)]
  unfold content
  exact List.take_of_length_le (le_of_eq hC0)

/-- C6 witness: prepending two bytes to a concrete one byte string and
cutting them away again restores the original content and length. -/
theorem C6_prepend_cut_roundtrip_witness :
    (string_cut (string_prepend_v alwaysAlloc
        { len := 1, capacity := 2, bytes := [1, 0] } [7, 8] 2).2 2 1).1 = 0 ∧
    content (string_cut (string_prepend_v alwaysAlloc
        { len := 1, capacity := 2, bytes := [1, 0] } [7, 8] 2).2 2 1).2 =
      content { len := 1, capacity := 2, bytes := [1, 0] } ∧
    (string_cut (string_prepend_v alwaysAlloc
        { len := 1, capacity := 2, bytes := [1, 0] } [7, 8] 2).2 2 1).2.len =
      1 := by
  exact C6_prepend_cut_roundtrip alwaysAlloc
    { len := 1, capacity := 2, bytes := [1, 0] } [7, 8] 2 (by decide)
    (by decide) (by decide) (by decide)

/-- C6 counterexample: with a prepended array of length n = 2 ^ 32, the
start argument n of the follow up string_cut is truncated to the width
of unsigned int, that is to 0, so the cut keeps the first byte of the
prepended data instead of the old content: the round trip on the valid
string of content the single byte 1 yields content the single byte 2,
although both the prepend and the cut succeed. -/
theorem C6_counterexample :
    Valid { len := 1, capacity := 2, bytes := [1, 0] } ∧
    (string_prepend_v alwaysAlloc { len := 1, capacity := 2, bytes := [1, 0] }
      (List.replicate (2 ^ 32) 2) (2 ^ 32)).1 = 0 ∧
    (string_cut (string_prepend_v alwaysAlloc
        { len := 1, capacity := 2, bytes := [1, 0] }
        (List.replicate (2 ^ 32) 2) (2 ^ 32)).2 (2 ^ 32) 1).1 = 0 ∧
    content (string_cut (string_prepend_v alwaysAlloc
        { len := 1, capacity := 2, bytes := [1, 0] }
        (List.replicate (2 ^ 32) 2) (2 ^ 32)).2 (2 ^ 32) 1).2 = [2] ∧
    content { len := 1, capacity := 2, bytes := [1, 0] } = [1] ∧
    ([2] : List Nat) ≠ [1] := by
  have hok : (string_prepend_v alwaysAlloc
      { len := 1, capacity := 2, bytes := [1, 0] }
      (List.replicate (2 ^ 32) 2) (2 ^ 32)).1 = 0 := by
    rw [(prepend_string_proj alwaysAlloc
      { len := 1, capacity := 2, bytes := [1, 0] }
      (List.replicate (2 ^ 32) 2) (2 ^ 32)).1]
    exact set_string_length_alwaysAlloc _ _
  obtain ⟨c1, tail, htail, hshape⟩ :=
    prepend_string_success_shape alwaysAlloc
      { len := 1, capacity := 2, bytes := [1, 0] }
      (List.replicate (2 ^ 32) 2) (2 ^ 32) (by decide) (by decide)
      (by norm_num [W64]) (by norm_num [W64]) hok
  have hnz : NoZero (List.replicate (2 ^ 32) 2) := by
    intro c hc
    rw [List.eq_of_mem_replicate hc]
    norm_num
  have hSval : strncpyData (List.replicate (2 ^ 32) 2) (2 ^ 32) =
      List.replicate (2 ^ 32) 2 := by
    have := strncpyData_eq_self (List.replicate (2 ^ 32) 2) hnz
    rwa [List.length_replicate] at this
  rw [hSval] at hshape
  refine ⟨by decide, hok, ?_, ?_, by decide, by decide⟩
  · rw [hshape]
    unfold string_cut
    dsimp only
    rw [(by norm_num [W32] : (2 ^ 32 : Nat) % W32 = 0),
      (by norm_num [W64] : (1 : Nat) % W64 = 1),
      (by norm_num [W64] : (0 + 1 : Nat) % W64 = 1)]
    rw [if_neg (by omega)]
  · rw [hshape]
    unfold string_cut
    dsimp only
    rw [(by norm_num [W32] : (2 ^ 32 : Nat) % W32 = 0),
      (by norm_num [W64] : (1 : Nat) % W64 = 1),
      (by norm_num [W64] : (0 + 1 : Nat) % W64 = 1)]
    rw [if_neg (by omega)]
    rw [content]
    dsimp only
    rw [List.drop_zero]
    have hrep1 : (List.replicate (2 ^ 32) 2 ++
        ({ len := 1, capacity := 2, bytes := [1, 0] } : StrBuf).bytes.take
          ({ len := 1, capacity := 2, bytes := [1, 0] } : StrBuf).len ++
        tail).take 1 = [2] := by
      rw [List.append_assoc,
        take_append_of_le _ _ _ (by rw [List.length_replicate]; norm_num),
        List.take_replicate]
      norm_num
    rw [hrep1]
    unfold setByte
    rw [take_set_of_le _ _ _ _ (le_refl 1)]
    rw [writeBytes_zero _ _ (by
      simp only [List.length_append, List.length_replicate, List.length_cons,
        List.length_nil]
      omega)]
    rw [take_append_of_le _ _ _ (by norm_num)]
    norm_num

end LibStrings
